import Mathlib

/-!
GoServe: a verification development for `main.go`.

A shallow embedding of the program's functions, followed by theorems about them.

Conventions of the embedding.

* Go `string` values are Lean `String`s; `==` and `!=` on them are Lean equality.
* A Go `[]byte` is a `List UInt8`.
* Go `int` status codes are `Int`. The `int64` byte counter is an `Int` that is wrapped to 64
  bits, two's complement, after every addition (`wrapInt64`).
* An `http.ResponseWriter` is an interface: it is embedded as a record of its methods over a
  state type `σ` (`http.ResponseWriter σ`), so that the wrapper of `main.go` delegates to an arbitrary
  implementation. `w.Header().Set(k, v)` is the method `HeaderSet`.
* A handler of the standard library (`http.FileServer`) is represented by the calls it makes on
  the writer handed to it (`List Call`).
* Lines written through package `log` are structured values (`LogLine`); the date, time and file
  prefix that the logger prepends is not part of them.
-/

namespace GoServe

/-! ## Data model -/

/-- A Go byte slice. -/
abbrev Bytes := List UInt8

/-- The UTF-8 bytes of a string, as `[]byte(s)` gives them. -/
def bytesOf (s : String) : Bytes := s.toList.flatMap String.utf8EncodeChar

/-- Two's-complement wraparound of a mathematical integer into the range of `int64`. -/
def wrapInt64 (x : Int) : Int := (x + 2 ^ 63) % 2 ^ 64 - 2 ^ 63

/-- The command line options of `main.go` (the `flag.String` variables), after `flag.Parse`. -/
structure Config where
  iface : String
  port : String
  serve : String
  tlsCert : String
  tlsKey : String
  authUser : String
  authPass : String
  logFile : String
  logLevel : String
  deriving DecidableEq, Repr

/-- The default value of every option, as declared in the `var` block. -/
def defaultConfig : Config :=
  { iface := "0.0.0.0", port := "8080", serve := "", tlsCert := "", tlsKey := "",
    authUser := "", authPass := "", logFile := "", logLevel := "info" }

/-- The part of an `*http.Request` the program looks at: the method, `r.URL.Path`, and the three
results `(username, password, ok)` of `r.BasicAuth()`. -/
structure Request where
  Method : String
  Path : String
  BasicAuth : String × String × Bool
  deriving DecidableEq, Repr

/-- The lines that the embedded functions write through package `log`, one constructor per
format string. -/
inductive LogLine where
  /-- The line `Failed to open log file: %v` of `setupLogger`. -/
  | failedToOpenLogFile (path : String)
  /-- The line `HTTP %d %s %s %d bytes` of `logHTTPDownload`. -/
  | httpDownload (status : Int) (method : String) (path : String) (size : Int)
  /-- The line `Served %s in %v`; the elapsed wall-clock time is not modelled. -/
  | served (path : String)
  /-- The line `Starting HTTP server on %s`. -/
  | startingHTTPServer (address : String)
  /-- The line `TCP connection established from %s`. -/
  | tcpEstablished (peer : String)
  /-- The line `Error while reading from TCP connection: %v`. -/
  | tcpCopyError (err : String)
  /-- The line `TCP connection closed from %s`. -/
  | tcpClosed (peer : String)
  deriving DecidableEq, Repr

/-! ## The `http.ResponseWriter` interface and the capturing wrapper -/

/-- The interface `http.ResponseWriter` over a state type `σ`: the three methods a handler can
call. `Write` returns the new state, the count `n` and the error (`none` is `nil`). -/
structure http.ResponseWriter (σ : Type) where
  HeaderSet : σ → String → String → σ
  Write : σ → Bytes → σ × Int × Option String
  WriteHeader : σ → Int → σ

/-- The struct `responseWriter` of `main.go`: the embedded `http.ResponseWriter`, the recorded
status and the recorded size. -/
structure responseWriter (σ : Type) where
  ResponseWriter : σ
  status : Int
  size : Int

/-- The method `(*responseWriter).WriteHeader`: record the status, then delegate. -/
def responseWriter.WriteHeader {σ : Type} (I : http.ResponseWriter σ) (w : responseWriter σ)
    (status : Int) : responseWriter σ :=
  let w1 := { w with status := status }
  { w1 with ResponseWriter := I.WriteHeader w1.ResponseWriter status }

/-- The method `(*responseWriter).Write`: delegate, then add the reported count to `size`. -/
def responseWriter.Write {σ : Type} (I : http.ResponseWriter σ) (w : responseWriter σ)
    (b : Bytes) : responseWriter σ × Int × Option String :=
  let r := I.Write w.ResponseWriter b
  let size := r.2.1
  let err := r.2.2
  ({ w with ResponseWriter := r.1, size := wrapInt64 (w.size + size) }, size, err)

/-- The promoted method `Header()` of the embedded writer, followed by `Set`: the wrapper does not
override it, so the call goes to the embedded writer unchanged. -/
def responseWriter.HeaderSet {σ : Type} (I : http.ResponseWriter σ) (w : responseWriter σ)
    (key value : String) : responseWriter σ :=
  { w with ResponseWriter := I.HeaderSet w.ResponseWriter key value }

/-- A `*responseWriter` used as an `http.ResponseWriter`. -/
def responseWriter.asWriter {σ : Type} (I : http.ResponseWriter σ) :
    http.ResponseWriter (responseWriter σ) :=
  { HeaderSet := responseWriter.HeaderSet I
    Write := responseWriter.Write I
    WriteHeader := responseWriter.WriteHeader I }

/-- One call of a handler on the writer it was given. -/
inductive Call where
  | headerSet (key value : String)
  | writeHeader (status : Int)
  | write (b : Bytes)
  deriving DecidableEq, Repr

/-- Perform one call on a writer. -/
def Call.apply {σ : Type} (I : http.ResponseWriter σ) (w : σ) : Call → σ
  | .headerSet k v => I.HeaderSet w k v
  | .writeHeader s => I.WriteHeader w s
  | .write b => (I.Write w b).1

/-- Perform a sequence of calls on a writer, in order. -/
def runCalls {σ : Type} (I : http.ResponseWriter σ) (w : σ) (calls : List Call) : σ :=
  calls.foldl (Call.apply I) w

/-- The counts `n` that the writer reports for the `Write` calls of a run, in order. -/
def reportedCounts {σ : Type} (I : http.ResponseWriter σ) : σ → List Call → List Int
  | _, [] => []
  | u, .write b :: rest => (I.Write u b).2.1 :: reportedCounts I (I.Write u b).1 rest
  | u, .headerSet k v :: rest => reportedCounts I (I.HeaderSet u k v) rest
  | u, .writeHeader s :: rest => reportedCounts I (I.WriteHeader u s) rest

/-- The arguments of the `WriteHeader` calls of a run, in order. -/
def headerCodes : List Call → List Int
  | [] => []
  | .writeHeader s :: rest => s :: headerCodes rest
  | _ :: rest => headerCodes rest

/-- The byte slices of the `Write` calls of a run, in order. -/
def writtenChunks : List Call → List Bytes
  | [] => []
  | .write b :: rest => b :: writtenChunks rest
  | _ :: rest => writtenChunks rest

/-! ## The response the client receives

`net/http` is library code. Its writer is modelled from the behaviour of the library:

* a `WriteHeader` with an informational code (100 to 199, except 101) sends that status line at
  once and leaves the status of the response open; the first `WriteHeader` with any other code
  fixes the status line and the header that is sent, and later `WriteHeader` calls are ignored;
* a `Write` before any such `WriteHeader` sends status 200 first; an empty `Write` reports 0; a
  `Write` after a status that allows no body (1xx, 204, 304) reports 0 and an error;
* of any other `Write` the library takes a number of bytes that depends on things outside the
  handler (the declared `Content-Length`, the connection): that number is given by the list
  `takes`, one entry per such `Write`, and the whole slice is taken once the list is used up;
* for a `HEAD` request the bytes taken are reported but not sent;
* a handler that returns without `WriteHeader` or `Write` gets status 200 with an empty body.

`WriteHeader` with a code below 100 or above 999 panics in the library; such codes are outside
this model, and no theorem uses it with one. -/

/-- The state of the response of `net/http` for one request. -/
structure http.response where
  /-- The header map that `Header()` returns. -/
  header : List (String × String)
  /-- Whether the final status line has been written. -/
  wroteHeader : Bool
  /-- The status code that was written. -/
  status : Int
  /-- The header map as it was when the status line was written. -/
  sentHeader : List (String × String)
  /-- The body bytes sent to the client so far. -/
  body : Bytes
  /-- The informational status codes sent so far. -/
  informational : List Int
  /-- Whether the request method is `HEAD`. -/
  head : Bool
  /-- How many bytes the library takes of each coming `Write` that is allowed a body. -/
  takes : List Nat
  deriving DecidableEq, Repr

/-- The response at the moment the server calls the top-level handler, for a request that is not
`HEAD` and a connection that takes every byte. -/
def http.response.fresh : http.response :=
  { header := [], wroteHeader := false, status := 0, sentHeader := [], body := [],
    informational := [], head := false, takes := [] }

/-- `Header().Set(key, value)` on the library response: replace the entry for `key`. -/
def http.response.HeaderSet (w : http.response) (key value : String) : http.response :=
  { w with header := (key, value) :: w.header.filter (fun kv => kv.1 != key) }

/-- The library function `bodyAllowedForStatus`. -/
def http.bodyAllowedForStatus (status : Int) : Bool :=
  if 100 ≤ status ∧ status ≤ 199 then false
  else if status = 204 then false
  else if status = 304 then false
  else true

/-- `WriteHeader(code)` on the library response: ignored once the final status line is written;
an informational code other than 101 is sent and leaves the status open; any other code is
final. -/
def http.response.WriteHeader (w : http.response) (code : Int) : http.response :=
  if w.wroteHeader then w
  else if 100 ≤ code ∧ code ≤ 199 ∧ code ≠ 101 then
    { w with informational := w.informational ++ [code] }
  else { w with wroteHeader := true, status := code, sentHeader := w.header }

/-- `Write(b)` on the library response: an implicit `WriteHeader(200)` if no final status line
was written; an empty slice reports 0; with a status that allows no body the call reports 0 and
`ErrBodyNotAllowed`; otherwise the library takes as many bytes as the next entry of `takes`
allows (all of them when the list is used up), reports that number, with an error when it is
short, and sends the bytes taken unless the request is `HEAD`. -/
def http.response.Write (w : http.response) (b : Bytes) : http.response × Int × Option String :=
  let w1 := if w.wroteHeader then w else w.WriteHeader 200
  if b.length = 0 then (w1, 0, none)
  else if !http.bodyAllowedForStatus w1.status then
    (w1, 0, some "http: request method or response status code does not allow body")
  else
    let n : Nat :=
      match w1.takes with
      | [] => b.length
      | k :: _ => min k b.length
    let err : Option String := if n < b.length then some "http: short write" else none
    let w2 := { w1 with takes := w1.takes.tail }
    if w2.head then (w2, (n : Int), err)
    else ({ w2 with body := w2.body ++ b.take n }, (n : Int), err)

/-- The library response as an `http.ResponseWriter`. -/
def http.response.asWriter : http.ResponseWriter http.response :=
  { HeaderSet := http.response.HeaderSet
    Write := http.response.Write
    WriteHeader := http.response.WriteHeader }

/-- The status code the client receives once the handler has returned. -/
def http.response.statusSent (w : http.response) : Int :=
  if w.wroteHeader then w.status else 200

/-- The header the client receives once the handler has returned. -/
def http.response.headerSent (w : http.response) : List (String × String) :=
  if w.wroteHeader then w.sentHeader else w.header

/-- Look a header up by name. -/
def headerGet (h : List (String × String)) (key : String) : Option String :=
  (h.find? (fun kv => kv.1 == key)).map (fun kv => kv.2)

/-- The library function `http.Error(w, error, code)`: two header entries, the status line, then
the message followed by a newline. -/
def http.Error {σ : Type} (I : http.ResponseWriter σ) (w : σ) (error : String) (code : Int) : σ :=
  let w1 := I.HeaderSet w "Content-Type" "text/plain; charset=utf-8"
  let w2 := I.HeaderSet w1 "X-Content-Type-Options" "nosniff"
  let w3 := I.WriteHeader w2 code
  (I.Write w3 (bytesOf (error ++ "\n"))).1

/-! ## Handlers -/

/-- What a handler can change: the writer it was given and the process-wide log. -/
structure World (σ : Type) where
  w : σ
  log : List LogLine

/-- An `http.Handler`: `ServeHTTP(w, r)` as a transformer of the writer and the log. -/
abbrev Handler (σ : Type) := Request → World σ → World σ

/-- The constant `http.StatusUnauthorized`. -/
def http.StatusUnauthorized : Int := 401

/-- The constant `http.StatusOK`. -/
def http.StatusOK : Int := 200

/-- The function `authMiddleware` of `main.go`. -/
def authMiddleware {σ : Type} (I : http.ResponseWriter σ) (cfg : Config) (next : Handler σ) :
    Handler σ :=
  fun r s =>
    if cfg.authUser ≠ "" ∧ cfg.authPass ≠ "" then
      let user := r.BasicAuth.1
      let pass := r.BasicAuth.2.1
      let ok := r.BasicAuth.2.2
      if !ok || user != cfg.authUser || pass != cfg.authPass then
        let w1 := I.HeaderSet s.w "WWW-Authenticate" "Basic realm=\"Restricted\""
        { s with w := http.Error I w1 "Unauthorized" http.StatusUnauthorized }
      else
        next r s
    else
      next r s

/-- The function `logHTTPDownload` of `main.go`. -/
def logHTTPDownload (r : Request) (status : Int) (size : Int) (log : List LogLine) :
    List LogLine :=
  log ++ [LogLine.httpDownload status r.Method r.Path size]

/-- The handler that `startHTTPServer` registers for the pattern `/`: wrap the writer, run the
file server on the wrapper, then log. `fileServer r` is the sequence of calls that
`http.FileServer(http.Dir("."))` makes on its writer for the request `r`. -/
def loggingHandler {σ : Type} (I : http.ResponseWriter σ) (fileServer : Request → List Call) :
    Handler σ :=
  fun r s =>
    let wrappedWriter : responseWriter σ :=
      { ResponseWriter := s.w, status := http.StatusOK, size := 0 }
    let wrappedWriter := runCalls (responseWriter.asWriter I) wrappedWriter (fileServer r)
    let log := logHTTPDownload r wrappedWriter.status wrappedWriter.size s.log
    { w := wrappedWriter.ResponseWriter, log := log ++ [LogLine.served r.Path] }

/-- The library type `http.ServeMux` with one handler registered for `/`. The mux answers some
requests itself (a redirect to the cleaned path, for instance) and hands every other one to the
registered handler; `own r` is `some calls` when it answers `r` itself with `calls`. -/
def http.ServeMux {σ : Type} (I : http.ResponseWriter σ) (own : Request → Option (List Call))
    (registered : Handler σ) : Handler σ :=
  fun r s =>
    match own r with
    | some calls => { s with w := runCalls I s.w calls }
    | none => registered r s

/-- The `Handler` field of the server that `startHTTPServer` builds:
`authMiddleware(http.DefaultServeMux)`, the mux holding the logging handler. -/
def serverHandler {σ : Type} (I : http.ResponseWriter σ) (cfg : Config)
    (own : Request → Option (List Call)) (fileServer : Request → List Call) : Handler σ :=
  authMiddleware I cfg (http.ServeMux I own (loggingHandler I fileServer))

/-! ## The TCP handler

A connection is the finite sequence of chunks that its `Read` calls return, followed by the way
the reads end. What the handler does is recorded in one chronological list of events, so that
the order of log lines, writes to standard output and the `Close` can be stated. -/

/-- How the reads of a connection end: `io.EOF`, or another error. -/
inductive ReadEnd where
  | eof
  | error (err : String)
  deriving DecidableEq, Repr

/-- A `net.Conn` as the handler sees it: `RemoteAddr().String()`, the data of the successive
`Read` calls, and how the reads end. -/
structure Conn where
  peer : String
  chunks : List Bytes
  last : ReadEnd
  deriving DecidableEq, Repr

/-- The interface `io.Writer` over a state type `σ`. -/
structure io.Writer (σ : Type) where
  Write : σ → Bytes → σ × Int × Option String

/-- An observable action of the TCP handler. -/
inductive Event where
  | logged (line : LogLine)
  | stdoutWrite (b : Bytes)
  | connClose (peer : String)
  deriving DecidableEq, Repr

/-- The process as the TCP handler changes it: standard output and the events so far. -/
structure Proc (σ : Type) where
  stdout : σ
  events : List Event

/-- The call `log.Printf` of the handler. -/
def Proc.logPrintf {σ : Type} (s : Proc σ) (line : LogLine) : Proc σ :=
  { s with events := s.events ++ [Event.logged line] }

/-- The library function `io.Copy(os.Stdout, conn)`, by its read and write loop: every non-empty
chunk is written in one `Write`; a write error, an invalid count or a short write stops the copy
with an error; `io.EOF` ends it with `nil`, any other read error with that error. The results are
the process, the number of bytes written and the error. -/
def io.Copy {σ : Type} (W : io.Writer σ) (last : ReadEnd) :
    Proc σ → Int → List Bytes → Proc σ × Int × Option String
  | s, written, [] =>
    match last with
    | .eof => (s, written, none)
    | .error e => (s, written, some e)
  | s, written, buf :: rest =>
    if 0 < buf.length then
      let r := W.Write s.stdout buf
      let s1 : Proc σ := { stdout := r.1, events := s.events ++ [Event.stdoutWrite buf] }
      let invalid : Bool := decide (r.2.1 < 0 ∨ (buf.length : Int) < r.2.1)
      let nw : Int := if invalid then 0 else r.2.1
      let ew : Option String :=
        if invalid then (if r.2.2.isNone then some "invalid write result" else r.2.2) else r.2.2
      let written := wrapInt64 (written + nw)
      match ew with
      | some e => (s1, written, some e)
      | none =>
        if (buf.length : Int) ≠ nw then (s1, written, some "short write")
        else io.Copy W last s1 written rest
    else
      io.Copy W last s written rest

/-- Standard output as an append-only byte sequence that accepts every write. -/
def appendOnly : io.Writer Bytes :=
  { Write := fun out b => (out ++ b, (b.length : Int), none) }

/-- The function `handleConnection` of `main.go`. The deferred `conn.Close()` runs last. -/
def handleConnection {σ : Type} (W : io.Writer σ) (conn : Conn) (s : Proc σ) : Proc σ :=
  let s := s.logPrintf (LogLine.tcpEstablished conn.peer)
  let r := io.Copy W conn.last s 0 conn.chunks
  let s := r.1
  let err := r.2.2
  let s :=
    match err with
    | some e => s.logPrintf (LogLine.tcpCopyError e)
    | none => s
  let s := s.logPrintf (LogLine.tcpClosed conn.peer)
  { s with events := s.events ++ [Event.connClose conn.peer] }

/-! ## Start-up -/

/-- What the program takes from its environment at start-up: whether `os.OpenFile` succeeds for
the log file, and the lower-case mapping of the Unicode tables for runes above the ASCII range. -/
structure Env where
  openFile : String → Bool
  lowerTable : Char → Char

/-- The constant `log.Ldate`. -/
def log.Ldate : Nat := 1
/-- The constant `log.Ltime`. -/
def log.Ltime : Nat := 2
/-- The constant `log.Lmicroseconds`. -/
def log.Lmicroseconds : Nat := 4
/-- The constant `log.Lshortfile`. -/
def log.Lshortfile : Nat := 16

/-- The library function `unicode.ToLower`: ASCII letters by arithmetic, every other rune through
the case tables. -/
def unicode.ToLower (table : Char → Char) (r : Char) : Char :=
  if r.toNat ≤ 0x7F then
    if 'A'.toNat ≤ r.toNat ∧ r.toNat ≤ 'Z'.toNat then Char.ofNat (r.toNat + ('a'.toNat - 'A'.toNat))
    else r
  else table r

/-- The library function `strings.ToLower`: `unicode.ToLower` on every rune. -/
def strings.ToLower (table : Char → Char) (s : String) : String :=
  String.mk (s.toList.map (unicode.ToLower table))

/-- A server or listener that `main` has started. -/
inductive Launch where
  | listenAndServeTLS (addr certFile keyFile : String)
  | listenAndServe (addr : String)
  | tcpListener (address : String)
  deriving DecidableEq, Repr

/-- The process during start-up: the flags and the output file of the standard logger (`none` is
standard error), the lines logged, what has been started, and the exit status once the process
has exited. -/
structure Process where
  flags : Nat
  output : Option String
  log : List LogLine
  launched : List Launch
  exit : Option Nat
  deriving DecidableEq, Repr

/-- The process when `main` begins: the logger has its standard flags and writes to standard
error. -/
def Process.start : Process :=
  { flags := log.Ldate ||| log.Ltime, output := none, log := [], launched := [], exit := none }

/-- The function `setupLogger` of `main.go`; `log.Fatalf` logs and exits with status 1. -/
def setupLogger (env : Env) (cfg : Config) (p : Process) : Process :=
  let p := { p with flags := log.Ldate ||| log.Ltime ||| log.Lshortfile }
  if cfg.logFile ≠ "" then
    if env.openFile cfg.logFile then
      { p with output := some cfg.logFile }
    else
      { p with log := p.log ++ [LogLine.failedToOpenLogFile cfg.logFile], exit := some 1 }
  else
    p

/-- The function `startHTTPServer` of `main.go`, up to the start of the serving goroutine. The
wait for a signal and the shutdown are not part of the embedding. -/
def startHTTPServer (cfg : Config) (port : String) (p : Process) : Process :=
  let address := ":" ++ port
  let p := { p with log := p.log ++ [LogLine.startingHTTPServer address] }
  if cfg.tlsCert ≠ "" ∧ cfg.tlsKey ≠ "" then
    { p with launched := p.launched ++ [Launch.listenAndServeTLS address cfg.tlsCert cfg.tlsKey] }
  else
    { p with launched := p.launched ++ [Launch.listenAndServe address] }

/-- The function `startTCPListener` of `main.go`, up to the call of `net.Listen`. The accept loop
is not part of the embedding. -/
def startTCPListener (address : String) (p : Process) : Process :=
  { p with launched := p.launched ++ [Launch.tcpListener address] }

/-- The function `main` of `main.go`, after `flag.Parse`. A process that has exited in
`setupLogger` does nothing more. -/
def main (env : Env) (cfg : Config) : Process :=
  let p := setupLogger env cfg Process.start
  if p.exit.isSome then p
  else
    let p :=
      if strings.ToLower env.lowerTable cfg.logLevel = "debug" then
        { p with flags := log.Ldate ||| log.Ltime ||| log.Lshortfile ||| log.Lmicroseconds }
      else p
    if cfg.serve ≠ "" then
      startHTTPServer cfg cfg.serve p
    else
      let address := cfg.iface ++ ":" ++ cfg.port
      startTCPListener address p

/-! ## Definitions used in the statements and in the examples -/

/-- A wrapper as the logging handler creates it, around the library response of a new request. -/
def freshWrapper : responseWriter http.response :=
  { ResponseWriter := http.response.fresh, status := http.StatusOK, size := 0 }

/-- What the gate does to the writer when it rejects a request: the challenge header, then
`http.Error` with status 401. -/
def rejected {σ : Type} (I : http.ResponseWriter σ) (s : World σ) : World σ :=
  let w1 := I.HeaderSet s.w "WWW-Authenticate" "Basic realm=\"Restricted\""
  { s with w := http.Error I w1 "Unauthorized" http.StatusUnauthorized }

/-- A configuration with both credentials set. -/
def authConfig : Config :=
  { defaultConfig with serve := "8000", authUser := "admin", authPass := "Secret" }

/-- A configuration with only the user name set. -/
def userOnlyConfig : Config :=
  { defaultConfig with serve := "8000", authUser := "admin" }

/-- A request without an `Authorization` header. -/
def anonymousRequest : Request :=
  { Method := "GET", Path := "/notes.txt", BasicAuth := ("", "", false) }

/-- A request whose password differs from the one of `authConfig` in letter case only. -/
def wrongCaseRequest : Request :=
  { Method := "GET", Path := "/notes.txt", BasicAuth := ("admin", "secret", true) }

/-- The writer and the log when the server calls the top-level handler for a new request. -/
def newRequestWorld : World http.response :=
  { w := http.response.fresh, log := [] }

/-- A file server that answers every request with status 200 and a body of three bytes. -/
def threeByteFileServer : Request → List Call :=
  fun _ => [Call.writeHeader 200, Call.write [104, 105, 10]]

/-- Whether an event is a `Close` of the connection. -/
def Event.isClose : Event → Bool
  | .connClose _ => true
  | _ => false

/-- Whether an event is the given log line. -/
def Event.isLine (line : LogLine) : Event → Bool
  | .logged l => decide (l = line)
  | _ => false

/-- Whether an event is an `Error while reading from TCP connection` line. -/
def Event.isCopyError : Event → Bool
  | .logged (.tcpCopyError _) => true
  | _ => false

/-- An environment in which every log file can be opened. -/
def openEnv : Env := { openFile := fun _ => true, lowerTable := fun c => c }

/-- An environment in which no log file can be opened. -/
def closedEnv : Env := { openFile := fun _ => false, lowerTable := fun c => c }

/-! ## Lemmas on the capturing wrapper -/

theorem wrapInt64_of_range (x : Int) (hlo : -(2 ^ 63) ≤ x) (hhi : x < 2 ^ 63) :
    wrapInt64 x = x := by
  unfold wrapInt64
  omega

theorem runCalls_nil {σ : Type} (I : http.ResponseWriter σ) (w : σ) : runCalls I w [] = w := rfl

theorem runCalls_cons {σ : Type} (I : http.ResponseWriter σ) (w : σ) (c : Call)
    (calls : List Call) : runCalls I w (c :: calls) = runCalls I (Call.apply I w c) calls := rfl

theorem reportedCounts_append {σ : Type} (I : http.ResponseWriter σ) (u : σ) (a b : List Call) :
    reportedCounts I u (a ++ b) = reportedCounts I u a ++ reportedCounts I (runCalls I u a) b := by
  induction a generalizing u with
  | nil => rfl
  | cons c rest ih =>
    cases c <;> simp [reportedCounts, runCalls_cons, Call.apply, ih]

/-- The recorded status after a run is the argument of the last `WriteHeader` call of the run,
and the status before the run when there is none. -/
theorem runCalls_wrapper_status {σ : Type} (I : http.ResponseWriter σ)
    (calls : List Call) (w : responseWriter σ) :
    (runCalls (responseWriter.asWriter I) w calls).status
      = (headerCodes calls).getLastD w.status := by
  induction calls generalizing w with
  | nil => rfl
  | cons c rest ih =>
    rw [runCalls_cons, ih]
    cases c with
    | headerSet k v => rfl
    | writeHeader st =>
      show (headerCodes rest).getLastD st = (st :: headerCodes rest).getLastD w.status
      cases headerCodes rest <;> rfl
    | write b => rfl

/-- The recorded size after a run is the size before plus the counts reported during the run, as
long as no count is negative and the total fits in `int64`. -/
theorem runCalls_wrapper_size {σ : Type} (I : http.ResponseWriter σ)
    (calls : List Call) (w : responseWriter σ) (hsize : 0 ≤ w.size)
    (hcount : ∀ n ∈ reportedCounts I w.ResponseWriter calls, 0 ≤ n)
    (hfit : w.size + (reportedCounts I w.ResponseWriter calls).sum < 2 ^ 63) :
    (runCalls (responseWriter.asWriter I) w calls).size
      = w.size + (reportedCounts I w.ResponseWriter calls).sum := by
  induction calls generalizing w with
  | nil => simp [runCalls_nil, reportedCounts]
  | cons c rest ih =>
    rw [runCalls_cons]
    cases c with
    | headerSet k v =>
      simp only [reportedCounts] at hcount hfit ⊢
      exact ih _ hsize hcount hfit
    | writeHeader st =>
      simp only [reportedCounts] at hcount hfit ⊢
      exact ih _ hsize hcount hfit
    | write b =>
      simp only [reportedCounts, List.sum_cons, List.mem_cons, forall_eq_or_imp] at hcount hfit ⊢
      obtain ⟨h0, hrest⟩ := hcount
      have hsum : 0 ≤ (reportedCounts I (I.Write w.ResponseWriter b).1 rest).sum :=
        List.sum_nonneg hrest
      have hw : wrapInt64 (w.size + (I.Write w.ResponseWriter b).2.1)
          = w.size + (I.Write w.ResponseWriter b).2.1 :=
        wrapInt64_of_range _ (by omega) (by omega)
      have := ih (Call.apply (responseWriter.asWriter I) w (Call.write b))
        (by simp only [Call.apply, responseWriter.asWriter, responseWriter.Write]; rw [hw]; omega)
        (by simpa only [Call.apply, responseWriter.asWriter, responseWriter.Write] using hrest)
        (by simp only [Call.apply, responseWriter.asWriter, responseWriter.Write]; rw [hw]; omega)
      rw [this]
      simp only [Call.apply, responseWriter.asWriter, responseWriter.Write]
      rw [hw]; omega

theorem headerCodes_map_writeHeader (codes : List Int) :
    headerCodes (codes.map Call.writeHeader) = codes := by
  induction codes with
  | nil => rfl
  | cons c rest ih => simp [headerCodes, ih]

/-! ## The capturing wrapper: status -/

/-- C3, counterexample: after `WriteHeader(404)` followed by `WriteHeader(500)` the recorded
status is 500, the argument of the second call and not of the first, although the client was
sent 404. -/
theorem writeHeader_first_call_does_not_win :
    (runCalls (responseWriter.asWriter http.response.asWriter) freshWrapper
        [Call.writeHeader 404, Call.writeHeader 500]).status = 500
    ∧ (runCalls (responseWriter.asWriter http.response.asWriter) freshWrapper
        [Call.writeHeader 404, Call.writeHeader 500]).status ≠ 404
    ∧ (runCalls (responseWriter.asWriter http.response.asWriter) freshWrapper
        [Call.writeHeader 404, Call.writeHeader 500]).ResponseWriter.statusSent = 404 := by
  decide

/-- C3, as amended: the wrapper records the status on every `WriteHeader` call, last write wins.
For every writer, every wrapper state and every run in which `WriteHeader` is called one or more
times (with any `Write` and `Header().Set` calls in between), the recorded status after the run is
the argument of the last `WriteHeader` call; in particular this holds for a run that consists of
`WriteHeader` calls only. -/
theorem writeHeader_last_call_wins {σ : Type} (I : http.ResponseWriter σ)
    (w : responseWriter σ) (codes : List Int) (hne : codes ≠ []) :
    (∀ calls : List Call, headerCodes calls = codes →
      (runCalls (responseWriter.asWriter I) w calls).status = codes.getLast hne)
    ∧ (runCalls (responseWriter.asWriter I) w (codes.map Call.writeHeader)).status
        = codes.getLast hne := by
  have key : ∀ calls : List Call, headerCodes calls = codes →
      (runCalls (responseWriter.asWriter I) w calls).status = codes.getLast hne := by
    intro calls hc
    rw [runCalls_wrapper_status, hc, List.getLastD_eq_getLast?, List.getLast?_eq_getLast _ hne]
    rfl
  exact ⟨key, key _ (headerCodes_map_writeHeader codes)⟩

/-- C3, witness: the run `WriteHeader(404)`, `WriteHeader(500)` on a new wrapper. -/
theorem writeHeader_last_call_wins_witness :
    ([404, 500] : List Int) ≠ []
    ∧ (runCalls (responseWriter.asWriter http.response.asWriter) freshWrapper
        (([404, 500] : List Int).map Call.writeHeader)).status = 500 :=
  ⟨by decide,
   (writeHeader_last_call_wins http.response.asWriter freshWrapper [404, 500] (by decide)).2⟩

/-- C6: the captured status defaults to 200. For every writer, request and file server, the
logging handler appends exactly the `HTTP` line and the `Served` line to the log, and the status
of the `HTTP` line is 200 when the file server never calls `WriteHeader` (whatever `Write` calls
it makes), and `s` when it calls `WriteHeader(s)` exactly once. -/
theorem logged_status_defaults_to_200 {σ : Type} (I : http.ResponseWriter σ)
    (fileServer : Request → List Call) (r : Request) (s : World σ) :
    (headerCodes (fileServer r) = [] →
      (loggingHandler I fileServer r s).log = s.log ++
        [LogLine.httpDownload 200 r.Method r.Path
          (runCalls (responseWriter.asWriter I)
            { ResponseWriter := s.w, status := http.StatusOK, size := 0 } (fileServer r)).size,
         LogLine.served r.Path])
    ∧ (∀ st : Int, headerCodes (fileServer r) = [st] →
      (loggingHandler I fileServer r s).log = s.log ++
        [LogLine.httpDownload st r.Method r.Path
          (runCalls (responseWriter.asWriter I)
            { ResponseWriter := s.w, status := http.StatusOK, size := 0 } (fileServer r)).size,
         LogLine.served r.Path]) := by
  refine ⟨fun h => ?_, fun st h => ?_⟩
  · simp [loggingHandler, logHTTPDownload, runCalls_wrapper_status, h, http.StatusOK]
  · simp [loggingHandler, logHTTPDownload, runCalls_wrapper_status, h]

/-- C6, witness: a file server that only writes three bytes is logged with status 200, and one
that calls `WriteHeader(404)` once and then writes is logged with status 404. -/
theorem logged_status_defaults_to_200_witness :
    (loggingHandler http.response.asWriter (fun _ => [Call.write [1, 2, 3]])
        { Method := "GET", Path := "/a", BasicAuth := ("", "", false) }
        { w := http.response.fresh, log := [] }).log
      = [LogLine.httpDownload 200 "GET" "/a" 3, LogLine.served "/a"]
    ∧ (loggingHandler http.response.asWriter
        (fun _ => [Call.writeHeader 404, Call.write [1, 2]])
        { Method := "GET", Path := "/b", BasicAuth := ("", "", false) }
        { w := http.response.fresh, log := [] }).log
      = [LogLine.httpDownload 404 "GET" "/b" 2, LogLine.served "/b"] :=
  ⟨(logged_status_defaults_to_200 http.response.asWriter (fun _ => [Call.write [1, 2, 3]])
      { Method := "GET", Path := "/a", BasicAuth := ("", "", false) }
      { w := http.response.fresh, log := [] }).1 rfl,
   (logged_status_defaults_to_200 http.response.asWriter
      (fun _ => [Call.writeHeader 404, Call.write [1, 2]])
      { Method := "GET", Path := "/b", BasicAuth := ("", "", false) }
      { w := http.response.fresh, log := [] }).2 404 rfl⟩

/-! ## The capturing wrapper: size -/

theorem reportedCounts_sum_of_lengths {σ : Type} (I : http.ResponseWriter σ) (u : σ)
    (calls : List Call)
    (hall : reportedCounts I u calls = (writtenChunks calls).map (fun b => (b.length : Int))) :
    (reportedCounts I u calls).sum = (((writtenChunks calls).flatten.length : Nat) : Int) := by
  rw [hall]
  generalize writtenChunks calls = chunks
  induction chunks with
  | nil => rfl
  | cons b rest ih => simp [ih]

/-- C4: the byte counter is the cumulative number of bytes written. Take a wrapper as the logging
handler creates it (size 0) around any writer, and any run of calls in which the writer reports
no negative count and the counts add up to less than `2 ^ 63`. Then (1) the recorded size is the
sum of the reported counts; (2) it is not negative; (3) from one call of the run to the next it
is not negative and does not decrease; (4) a `WriteHeader` call leaves the size of any wrapper
unchanged; (5) when the writer accepts every byte of every `Write`, the recorded size is the
length of the concatenation of the slices written, which is the length of the file when the
slices are the content of a served file. -/
theorem size_is_cumulative_byte_count {σ : Type} (I : http.ResponseWriter σ) (u : σ)
    (calls : List Call)
    (hcount : ∀ n ∈ reportedCounts I u calls, 0 ≤ n)
    (hfit : (reportedCounts I u calls).sum < 2 ^ 63) :
    (runCalls (responseWriter.asWriter I)
        { ResponseWriter := u, status := http.StatusOK, size := 0 } calls).size
      = (reportedCounts I u calls).sum
    ∧ 0 ≤ (runCalls (responseWriter.asWriter I)
        { ResponseWriter := u, status := http.StatusOK, size := 0 } calls).size
    ∧ (∀ (pre : List Call) (c : Call) (post : List Call), calls = pre ++ c :: post →
        0 ≤ (runCalls (responseWriter.asWriter I)
          { ResponseWriter := u, status := http.StatusOK, size := 0 } pre).size
        ∧ (runCalls (responseWriter.asWriter I)
            { ResponseWriter := u, status := http.StatusOK, size := 0 } pre).size
          ≤ (runCalls (responseWriter.asWriter I)
            { ResponseWriter := u, status := http.StatusOK, size := 0 } (pre ++ [c])).size)
    ∧ (∀ (w : responseWriter σ) (status : Int),
        (responseWriter.WriteHeader I w status).size = w.size)
    ∧ (∀ file : Bytes, (writtenChunks calls).flatten = file →
        reportedCounts I u calls = (writtenChunks calls).map (fun b => (b.length : Int)) →
        (runCalls (responseWriter.asWriter I)
          { ResponseWriter := u, status := http.StatusOK, size := 0 } calls).size
          = (file.length : Int)) := by
  have hsum : ∀ l : List Call, (∀ n ∈ reportedCounts I u l, 0 ≤ n) →
      (reportedCounts I u l).sum < 2 ^ 63 →
      (runCalls (responseWriter.asWriter I)
        { ResponseWriter := u, status := http.StatusOK, size := 0 } l).size
        = (reportedCounts I u l).sum := by
    intro l h1 h2
    have := runCalls_wrapper_size I l
      { ResponseWriter := u, status := http.StatusOK, size := 0 } (le_refl _) h1
      (by simpa using h2)
    simpa using this
  have htotal := hsum calls hcount hfit
  refine ⟨htotal, ?_, ?_, fun w status => rfl, ?_⟩
  · rw [htotal]; exact List.sum_nonneg hcount
  · intro pre c post hsplit
    subst hsplit
    have happ : reportedCounts I u (pre ++ c :: post)
        = reportedCounts I u (pre ++ [c]) ++ reportedCounts I (runCalls I u (pre ++ [c])) post := by
      rw [← reportedCounts_append]; simp
    have hone : reportedCounts I u (pre ++ [c])
        = reportedCounts I u pre ++ reportedCounts I (runCalls I u pre) [c] :=
      reportedCounts_append I u pre [c]
    rw [happ, hone] at hcount hfit
    simp only [List.mem_append, List.sum_append] at hcount hfit
    have n1 : ∀ n ∈ reportedCounts I u pre, 0 ≤ n := fun n hn => hcount n (Or.inl (Or.inl hn))
    have n2 : ∀ n ∈ reportedCounts I (runCalls I u pre) [c], 0 ≤ n :=
      fun n hn => hcount n (Or.inl (Or.inr hn))
    have n3 : ∀ n ∈ reportedCounts I (runCalls I u (pre ++ [c])) post, 0 ≤ n :=
      fun n hn => hcount n (Or.inr hn)
    have s1 := List.sum_nonneg n1
    have s2 := List.sum_nonneg n2
    have s3 := List.sum_nonneg n3
    have e1 := hsum pre n1 (by omega)
    have e2 := hsum (pre ++ [c])
      (by
        rw [hone]
        intro n hn
        rcases List.mem_append.mp hn with h | h
        · exact n1 n h
        · exact n2 n h)
      (by rw [hone, List.sum_append]; omega)
    rw [e1, e2, hone, List.sum_append]
    omega
  · intro file hfile hall
    rw [htotal, reportedCounts_sum_of_lengths I u calls hall, hfile]

/-- C4, witness: a file of five bytes served in two slices, after a `WriteHeader`, through the
library response, which accepts every byte; the recorded size is 5. -/
theorem size_is_cumulative_byte_count_witness :
    (runCalls (responseWriter.asWriter http.response.asWriter) freshWrapper
        [Call.writeHeader 200, Call.write [1, 2, 3], Call.write [4, 5]]).size = 5
    ∧ (reportedCounts http.response.asWriter http.response.fresh
        [Call.writeHeader 200, Call.write [1, 2, 3], Call.write [4, 5]]).sum = 5 :=
  ⟨(size_is_cumulative_byte_count http.response.asWriter http.response.fresh
      [Call.writeHeader 200, Call.write [1, 2, 3], Call.write [4, 5]]
      (by decide) (by decide)).2.2.2.2 [1, 2, 3, 4, 5] rfl rfl,
   by decide⟩

/-! ## The authentication gate -/

/-- The gate forwards to `next` when authentication is not configured or the credentials of the
request are the configured ones, and rejects without `next` otherwise. -/
theorem authMiddleware_eq {σ : Type} (I : http.ResponseWriter σ) (cfg : Config)
    (next : Handler σ) (r : Request) (s : World σ) :
    authMiddleware I cfg next r s =
      if (cfg.authUser ≠ "" ∧ cfg.authPass ≠ "") ∧
          ¬ (r.BasicAuth.2.2 = true ∧ r.BasicAuth.1 = cfg.authUser
              ∧ r.BasicAuth.2.1 = cfg.authPass)
      then rejected I s else next r s := by
  unfold authMiddleware rejected
  by_cases hcfg : cfg.authUser ≠ "" ∧ cfg.authPass ≠ ""
  · by_cases hok : r.BasicAuth.2.2 = true
    · by_cases hu : r.BasicAuth.1 = cfg.authUser
      · by_cases hp : r.BasicAuth.2.1 = cfg.authPass <;> simp [hcfg, hok, hu, hp]
      · simp [hcfg, hok, hu]
    · simp [hcfg, hok]
  · simp [hcfg]

/-! ## Lemmas on the library response -/

/-- What a `Write` on the library response does to the status line, the header, the `HEAD` mark
and the body, and the range of the count it reports. -/
theorem http_response_Write_spec (w : http.response) (b : Bytes) :
    (w.Write b).1.wroteHeader = true
    ∧ (w.Write b).1.status = (if w.wroteHeader then w.status else 200)
    ∧ (w.Write b).1.sentHeader = (if w.wroteHeader then w.sentHeader else w.header)
    ∧ (w.Write b).1.head = w.head
    ∧ 0 ≤ (w.Write b).2.1
    ∧ (w.Write b).2.1 ≤ (b.length : Int)
    ∧ (w.head = false →
        ((w.Write b).1.body.length : Int) = (w.body.length : Int) + (w.Write b).2.1) := by
  obtain ⟨header, wrote, status, sentHeader, body, info, head, takes⟩ := w
  have h200 : ¬ ((100 : Int) ≤ 200 ∧ (200 : Int) ≤ 199 ∧ (200 : Int) ≠ 101) := by decide
  cases wrote <;> cases takes <;> cases head <;>
    simp only [http.response.Write, http.response.WriteHeader, h200, if_false, if_true,
      Bool.false_eq_true, List.tail] <;>
    (by_cases hb : b.length = 0
     · simp [hb]
     · simp only [hb, if_false]
       split_ifs <;> simp [List.length_take])

/-- What a `WriteHeader` on the library response does. -/
theorem http_response_WriteHeader_spec (w : http.response) (code : Int) :
    (w.WriteHeader code).head = w.head
    ∧ (w.WriteHeader code).body = w.body
    ∧ (w.wroteHeader = true → w.WriteHeader code = w)
    ∧ (w.wroteHeader = false → 200 ≤ code →
        (w.WriteHeader code).wroteHeader = true ∧ (w.WriteHeader code).status = code
        ∧ (w.WriteHeader code).sentHeader = w.header) := by
  unfold http.response.WriteHeader
  refine ⟨?_, ?_, ?_, ?_⟩
  · split_ifs <;> rfl
  · split_ifs <;> rfl
  · intro h; simp [h]
  · intro h hc
    have : ¬ (100 ≤ code ∧ code ≤ 199 ∧ code ≠ 101) := by omega
    simp [h, this]

theorem response_run_head (calls : List Call) (w : http.response) :
    (runCalls http.response.asWriter w calls).head = w.head := by
  induction calls generalizing w with
  | nil => rfl
  | cons c rest ih =>
    rw [runCalls_cons, ih]
    cases c with
    | headerSet k v => rfl
    | writeHeader st => exact (http_response_WriteHeader_spec w st).1
    | write b => exact (http_response_Write_spec w b).2.2.2.1

/-- A rejection through the library response, before any status line was written: the client
receives status 401 and the challenge header, the status line is written, and nothing is
logged. -/
theorem rejected_response (s : World http.response) (hnew : s.w.wroteHeader = false) :
    (rejected http.response.asWriter s).w.statusSent = 401
    ∧ headerGet (rejected http.response.asWriter s).w.headerSent "WWW-Authenticate"
        = some "Basic realm=\"Restricted\""
    ∧ (rejected http.response.asWriter s).w.wroteHeader = true
    ∧ (rejected http.response.asWriter s).log = s.log := by
  generalize hw2 : ((s.w.HeaderSet "WWW-Authenticate" "Basic realm=\"Restricted\"").HeaderSet
      "Content-Type" "text/plain; charset=utf-8").HeaderSet
      "X-Content-Type-Options" "nosniff" = w2
  have hw2new : w2.wroteHeader = false := by rw [← hw2]; exact hnew
  have hget : headerGet w2.header "WWW-Authenticate" = some "Basic realm=\"Restricted\"" := by
    rw [← hw2]; simp [http.response.HeaderSet, headerGet]
  have hh := (http_response_WriteHeader_spec w2 401).2.2.2 hw2new (by decide)
  have hs := http_response_Write_spec (w2.WriteHeader 401) (bytesOf ("Unauthorized" ++ "\n"))
  have hout : (rejected http.response.asWriter s).w
      = ((w2.WriteHeader 401).Write (bytesOf ("Unauthorized" ++ "\n"))).1 := by
    rw [← hw2]; rfl
  rw [hout]
  refine ⟨?_, ?_, hs.1, rfl⟩
  · simp only [http.response.statusSent, hs.1, hs.2.1, hh.1, hh.2.1, if_true]
  · simp only [http.response.headerSent, hs.1, hs.2.2.1, hh.1, hh.2.2, if_true, hget]

/-- C1: with both the configured user name and password non-empty, for every request handed to
the gate with a response whose status line is not yet written: (1) if `BasicAuth` reports
`ok = true` with a user equal to the configured user name and a password equal to the configured
password, the result is that of `next` run once on the unchanged writer and request; (2) in every
other case the result is the rejection, which is the same for every `next` (so `next` is not
run), the client receives status 401 and a `WWW-Authenticate` header whose value begins with
`Basic`, and nothing is logged; (3) the gate behaves as `next` for every `next` if and only if
the credentials match. String equality is exact, so a difference in letter case is a mismatch. -/
theorem authMiddleware_requires_matching_credentials (cfg : Config)
    (huser : cfg.authUser ≠ "") (hpass : cfg.authPass ≠ "")
    (r : Request) (s : World http.response) (hnew : s.w.wroteHeader = false) :
    ((r.BasicAuth.2.2 = true ∧ r.BasicAuth.1 = cfg.authUser ∧ r.BasicAuth.2.1 = cfg.authPass) →
      ∀ next : Handler http.response,
        authMiddleware http.response.asWriter cfg next r s = next r s)
    ∧ (¬ (r.BasicAuth.2.2 = true ∧ r.BasicAuth.1 = cfg.authUser
          ∧ r.BasicAuth.2.1 = cfg.authPass) →
      ∀ next : Handler http.response,
        authMiddleware http.response.asWriter cfg next r s = rejected http.response.asWriter s
        ∧ (authMiddleware http.response.asWriter cfg next r s).w.statusSent = 401
        ∧ (∃ v, headerGet (authMiddleware http.response.asWriter cfg next r s).w.headerSent
              "WWW-Authenticate" = some v ∧ "Basic".toList <+: v.toList)
        ∧ (authMiddleware http.response.asWriter cfg next r s).log = s.log)
    ∧ ((∀ next : Handler http.response,
          authMiddleware http.response.asWriter cfg next r s = next r s)
        ↔ (r.BasicAuth.2.2 = true ∧ r.BasicAuth.1 = cfg.authUser
            ∧ r.BasicAuth.2.1 = cfg.authPass)) := by
  have hyes : (r.BasicAuth.2.2 = true ∧ r.BasicAuth.1 = cfg.authUser
        ∧ r.BasicAuth.2.1 = cfg.authPass) →
      ∀ next : Handler http.response,
        authMiddleware http.response.asWriter cfg next r s = next r s := by
    intro hm next
    rw [authMiddleware_eq, if_neg (fun h => h.2 hm)]
  have hno : ¬ (r.BasicAuth.2.2 = true ∧ r.BasicAuth.1 = cfg.authUser
        ∧ r.BasicAuth.2.1 = cfg.authPass) →
      ∀ next : Handler http.response,
        authMiddleware http.response.asWriter cfg next r s
          = rejected http.response.asWriter s := by
    intro hm next
    rw [authMiddleware_eq, if_pos ⟨⟨huser, hpass⟩, hm⟩]
  obtain ⟨hstatus, hheader, hwrote, hlog⟩ := rejected_response s hnew
  refine ⟨hyes, ?_, ?_, hyes⟩
  · intro hm next
    rw [hno hm next]
    exact ⟨rfl, hstatus, ⟨_, hheader, by decide⟩, hlog⟩
  · intro hall
    by_contra hm
    have h1 := hall (fun _ t => t)
    rw [hno hm] at h1
    have h2 : (rejected http.response.asWriter s).w.wroteHeader = s.w.wroteHeader := by rw [h1]
    rw [hwrote, hnew] at h2
    exact absurd h2 (by decide)

/-- C1, witness: with user `admin` and password `Secret` configured, a request that sends the
password `secret` is answered with status 401 and the file server is not run. -/
theorem authMiddleware_requires_matching_credentials_witness :
    authConfig.authUser ≠ "" ∧ authConfig.authPass ≠ ""
    ∧ (serverHandler http.response.asWriter authConfig (fun _ => none) threeByteFileServer
        wrongCaseRequest newRequestWorld).w.statusSent = 401 :=
  ⟨by decide, by decide,
   ((authMiddleware_requires_matching_credentials authConfig (by decide) (by decide)
      wrongCaseRequest newRequestWorld rfl).2.1 (by decide)
      (http.ServeMux http.response.asWriter (fun _ => none)
        (loggingHandler http.response.asWriter threeByteFileServer))).2.1⟩

/-- C2: with the configured user name or the configured password empty (one of them or both), for
every writer, every request and every `next`, the result of the gate is that of `next` run once
on the unchanged writer and request; the gate itself leaves the writer and the log as they are
(no status 401, no `WWW-Authenticate` header), as the case of a `next` that does nothing
shows. -/
theorem authMiddleware_disabled_forwards_every_request {σ : Type} (I : http.ResponseWriter σ)
    (cfg : Config) (hempty : cfg.authUser = "" ∨ cfg.authPass = "")
    (r : Request) (s : World σ) :
    (∀ next : Handler σ, authMiddleware I cfg next r s = next r s)
    ∧ authMiddleware I cfg (fun _ t => t) r s = s := by
  have hall : ∀ next : Handler σ, authMiddleware I cfg next r s = next r s := by
    intro next
    rw [authMiddleware_eq, if_neg]
    rintro ⟨⟨hu, hp⟩, -⟩
    rcases hempty with h | h
    · exact hu h
    · exact hp h
  exact ⟨hall, hall _⟩

/-- C2, witness: with only the user name configured, a request without credentials reaches the
file server and is answered with status 200. -/
theorem authMiddleware_disabled_forwards_every_request_witness :
    (userOnlyConfig.authUser = "" ∨ userOnlyConfig.authPass = "")
    ∧ (serverHandler http.response.asWriter userOnlyConfig (fun _ => none) threeByteFileServer
        anonymousRequest newRequestWorld).w.statusSent = 200
    ∧ serverHandler http.response.asWriter userOnlyConfig (fun _ => none) threeByteFileServer
        anonymousRequest newRequestWorld
      = http.ServeMux http.response.asWriter (fun _ => none)
          (loggingHandler http.response.asWriter threeByteFileServer)
          anonymousRequest newRequestWorld :=
  ⟨by decide, by decide,
   (authMiddleware_disabled_forwards_every_request http.response.asWriter userOnlyConfig
      (by decide) anonymousRequest newRequestWorld).1 _⟩

/-! ## Logging of responses -/

theorem io_Copy_empty_chunk {σ : Type} (W : io.Writer σ) (last : ReadEnd) (s : Proc σ)
    (written : Int) (rest : List Bytes) :
    io.Copy W last s written ([] :: rest) = io.Copy W last s written rest := by
  simp [io.Copy]

/-- One step of the copy on a non-empty chunk: the chunk is written, and then the copy either
stops with an error or goes on with the remaining chunks. -/
theorem io_Copy_cons_cases {σ : Type} (W : io.Writer σ) (last : ReadEnd) (s : Proc σ)
    (written : Int) (buf : Bytes) (rest : List Bytes) (hlen : 0 < buf.length) :
    (∃ w1 e, io.Copy W last s written (buf :: rest)
        = ({ stdout := (W.Write s.stdout buf).1,
             events := s.events ++ [Event.stdoutWrite buf] }, w1, some e))
    ∨ (∃ w1, io.Copy W last s written (buf :: rest)
        = io.Copy W last { stdout := (W.Write s.stdout buf).1,
                           events := s.events ++ [Event.stdoutWrite buf] } w1 rest) := by
  simp only [io.Copy, hlen, if_true]
  generalize (W.Write s.stdout buf).2.1 = n
  generalize (W.Write s.stdout buf).2.2 = ew
  by_cases hinv : n < 0 ∨ (buf.length : Int) < n
  · simp only [hinv, decide_True, if_true]
    cases ew with
    | none => exact Or.inl ⟨_, _, rfl⟩
    | some e => exact Or.inl ⟨_, _, rfl⟩
  · simp only [hinv, decide_False, Bool.false_eq_true, if_false]
    cases ew with
    | some e => exact Or.inl ⟨_, _, rfl⟩
    | none =>
      by_cases hshort : (buf.length : Int) ≠ n
      · simp only [hshort, if_true, ne_eq, not_false_eq_true]
        exact Or.inl ⟨_, _, rfl⟩
      · simp only [hshort, if_false]
        exact Or.inr ⟨_, rfl⟩

/-- Copying to a writer that accepts every write appends all chunks, in order, and the error of
the copy is the read error, if any. -/
theorem io_Copy_appendOnly (last : ReadEnd) (chunks : List Bytes) (s : Proc Bytes)
    (written : Int) :
    (io.Copy appendOnly last s written chunks).1.stdout = s.stdout ++ chunks.flatten
    ∧ (io.Copy appendOnly last s written chunks).2.2
        = (match last with
          | .eof => none
          | .error e => some e) := by
  induction chunks generalizing s written with
  | nil => cases last <;> simp [io.Copy]
  | cons buf rest ih =>
    by_cases hlen : 0 < buf.length
    · have hstep : io.Copy appendOnly last s written (buf :: rest)
          = io.Copy appendOnly last
              { stdout := s.stdout ++ buf, events := s.events ++ [Event.stdoutWrite buf] }
              (wrapInt64 (written + (buf.length : Int))) rest := by
        have hinv : ¬ (((buf.length : Nat) : Int) < 0 ∨ ((buf.length : Nat) : Int) < buf.length) := by
          omega
        simp only [io.Copy, hlen, if_true, appendOnly, hinv, decide_False, Bool.false_eq_true,
          if_false, ne_eq, not_true_eq_false]
      rw [hstep]
      obtain ⟨h1, h2⟩ := ih
        { stdout := s.stdout ++ buf, events := s.events ++ [Event.stdoutWrite buf] }
        (wrapInt64 (written + (buf.length : Int)))
      exact ⟨by rw [h1]; simp, h2⟩
    · have hnil : buf = [] := List.length_eq_zero.mp (by omega)
      subst hnil
      rw [io_Copy_empty_chunk]
      simpa using ih s written

/-- Whatever the writer does, the copy only adds writes to standard output to the events, and the
slices written are an initial part of the non-empty chunks, in order. -/
theorem io_Copy_events {σ : Type} (W : io.Writer σ) (last : ReadEnd) (chunks : List Bytes)
    (s : Proc σ) (written : Int) :
    ∃ writes : List Bytes, writes <+: chunks.filter (fun b => decide (0 < b.length))
      ∧ (io.Copy W last s written chunks).1.events = s.events ++ writes.map Event.stdoutWrite := by
  induction chunks generalizing s written with
  | nil => exact ⟨[], by simp, by cases last <;> simp [io.Copy]⟩
  | cons buf rest ih =>
    by_cases hlen : 0 < buf.length
    · rcases io_Copy_cons_cases W last s written buf rest hlen with ⟨w1, e, hstop⟩ | ⟨w1, hstep⟩
      · refine ⟨[buf], ?_, ?_⟩
        · simp only [List.filter_cons, hlen, decide_True, if_true]
          exact (List.prefix_cons_inj buf).mpr List.nil_prefix
        · rw [hstop]; rfl
      · obtain ⟨writes, hpre, hw⟩ := ih
          { stdout := (W.Write s.stdout buf).1, events := s.events ++ [Event.stdoutWrite buf] } w1
        refine ⟨buf :: writes, ?_, ?_⟩
        · simp only [List.filter_cons, hlen, decide_True, if_true]
          exact (List.prefix_cons_inj buf).mpr hpre
        · rw [hstep, hw]; simp
    · have hnil : buf = [] := List.length_eq_zero.mp (by omega)
      subst hnil
      rw [io_Copy_empty_chunk]
      simpa using ih s written

theorem countP_stdoutWrite (p : Event → Bool) (hp : ∀ b, p (Event.stdoutWrite b) = false)
    (writes : List Bytes) : (writes.map Event.stdoutWrite).countP p = 0 := by
  induction writes with
  | nil => rfl
  | cons b rest ih => simp [List.countP_cons, hp, ih]

/-- C9: the TCP handler preserves the stream. For every connection, given as the chunks its reads
return and the way the reads end (end of stream or a read error), and standard output as an
append-only byte sequence that accepts every write, standard output after `handleConnection` is
standard output before followed by the concatenation of the chunks, in order. This holds for
both ways the reads can end, so after a read error exactly the bytes read before it have been
written; and the copy reports an error exactly when the reads ended with one. -/
theorem handleConnection_preserves_stream (conn : Conn) (s : Proc Bytes) :
    (handleConnection appendOnly conn s).stdout = s.stdout ++ conn.chunks.flatten
    ∧ (io.Copy appendOnly conn.last (s.logPrintf (LogLine.tcpEstablished conn.peer)) 0
        conn.chunks).2.2
        = (match conn.last with
          | .eof => none
          | .error e => some e) := by
  obtain ⟨h1, h2⟩ := io_Copy_appendOnly conn.last conn.chunks
    (s.logPrintf (LogLine.tcpEstablished conn.peer)) 0
  refine ⟨?_, h2⟩
  have : (handleConnection appendOnly conn s).stdout
      = (io.Copy appendOnly conn.last (s.logPrintf (LogLine.tcpEstablished conn.peer)) 0
          conn.chunks).1.stdout := by
    unfold handleConnection
    simp only []
    split <;> rfl
  rw [this, h1]
  rfl

/-- C10: the TCP handler always releases the connection and logs one closure. For every writer
behind standard output (also one whose writes fail), every connection and every state, the events
that `handleConnection` adds are, in this order: the `TCP connection established` line for the
peer, the writes of the copy (an initial part of the non-empty chunks), the `Error while reading
from TCP connection` line if and only if the copy returned an error, the `TCP connection closed`
line for the peer, and the `Close` of the connection. So among the added events there is exactly
one `Close`, exactly one established line, exactly one closed line, and one error line or none
according to the error of the copy. -/
theorem handleConnection_closes_and_logs_once {σ : Type} (W : io.Writer σ) (conn : Conn)
    (s : Proc σ) :
    ∃ writes : List Bytes,
      writes <+: conn.chunks.filter (fun b => decide (0 < b.length))
      ∧ (handleConnection W conn s).events
          = s.events
            ++ [Event.logged (LogLine.tcpEstablished conn.peer)]
            ++ writes.map Event.stdoutWrite
            ++ (match (io.Copy W conn.last (s.logPrintf (LogLine.tcpEstablished conn.peer)) 0
                  conn.chunks).2.2 with
                | some e => [Event.logged (LogLine.tcpCopyError e)]
                | none => [])
            ++ [Event.logged (LogLine.tcpClosed conn.peer), Event.connClose conn.peer]
      ∧ ((handleConnection W conn s).events.drop s.events.length).countP Event.isClose = 1
      ∧ ((handleConnection W conn s).events.drop s.events.length).countP
          (Event.isLine (LogLine.tcpEstablished conn.peer)) = 1
      ∧ ((handleConnection W conn s).events.drop s.events.length).countP
          (Event.isLine (LogLine.tcpClosed conn.peer)) = 1
      ∧ ((handleConnection W conn s).events.drop s.events.length).countP Event.isCopyError
          = (if (io.Copy W conn.last (s.logPrintf (LogLine.tcpEstablished conn.peer)) 0
                conn.chunks).2.2 = none then 0 else 1) := by
  obtain ⟨writes, hpre, hev⟩ := io_Copy_events W conn.last conn.chunks
    (s.logPrintf (LogLine.tcpEstablished conn.peer)) 0
  have hshape : (handleConnection W conn s).events
      = s.events
        ++ [Event.logged (LogLine.tcpEstablished conn.peer)]
        ++ writes.map Event.stdoutWrite
        ++ (match (io.Copy W conn.last (s.logPrintf (LogLine.tcpEstablished conn.peer)) 0
              conn.chunks).2.2 with
            | some e => [Event.logged (LogLine.tcpCopyError e)]
            | none => [])
        ++ [Event.logged (LogLine.tcpClosed conn.peer), Event.connClose conn.peer] := by
    unfold handleConnection
    simp only []
    generalize io.Copy W conn.last (s.logPrintf (LogLine.tcpEstablished conn.peer)) 0
      conn.chunks = res at hev ⊢
    obtain ⟨s1, w1, err⟩ := res
    simp only [Proc.logPrintf] at hev
    cases err <;> simp [Proc.logPrintf, hev]
  refine ⟨writes, hpre, hshape, ?_, ?_, ?_, ?_⟩
  all_goals
    rw [hshape]
    simp only [List.append_assoc, List.drop_left]
    cases (io.Copy W conn.last (s.logPrintf (LogLine.tcpEstablished conn.peer)) 0
        conn.chunks).2.2 <;>
      simp [List.countP_append, List.countP_cons, countP_stdoutWrite, Event.isClose,
        Event.isLine, Event.isCopyError]

/-! ## Start-up -/

theorem setupLogger_exit (env : Env) (cfg : Config) :
    (setupLogger env cfg Process.start).exit
      = if cfg.logFile = "" ∨ env.openFile cfg.logFile = true then none else some 1 := by
  unfold setupLogger
  by_cases h1 : cfg.logFile = ""
  · simp [h1, Process.start]
  · by_cases h2 : env.openFile cfg.logFile = true <;> simp [h1, h2, Process.start]

theorem setupLogger_flags (env : Env) (cfg : Config) :
    (setupLogger env cfg Process.start).flags = log.Ldate ||| log.Ltime ||| log.Lshortfile := by
  unfold setupLogger
  by_cases h1 : cfg.logFile = ""
  · simp [h1]
  · by_cases h2 : env.openFile cfg.logFile = true <;> simp [h1, h2]

theorem setupLogger_launched (env : Env) (cfg : Config) :
    (setupLogger env cfg Process.start).launched = [] := by
  unfold setupLogger
  by_cases h1 : cfg.logFile = ""
  · simp [h1, Process.start]
  · by_cases h2 : env.openFile cfg.logFile = true <;> simp [h1, h2, Process.start]

theorem main_of_logger_ready (env : Env) (cfg : Config)
    (h : cfg.logFile = "" ∨ env.openFile cfg.logFile = true) :
    (main env cfg).launched =
        [if cfg.serve ≠ "" then
          (if cfg.tlsCert ≠ "" ∧ cfg.tlsKey ≠ "" then
            Launch.listenAndServeTLS (":" ++ cfg.serve) cfg.tlsCert cfg.tlsKey
          else Launch.listenAndServe (":" ++ cfg.serve))
        else Launch.tcpListener (cfg.iface ++ ":" ++ cfg.port)]
      ∧ (main env cfg).exit = none := by
  have hexit := setupLogger_exit env cfg
  have hl := setupLogger_launched env cfg
  rw [if_pos h] at hexit
  unfold main
  simp only [hexit, Option.isSome_none, Bool.false_eq_true, if_false]
  by_cases hs : cfg.serve = ""
  · by_cases hd : strings.ToLower env.lowerTable cfg.logLevel = "debug" <;>
      simp [hs, hd, startTCPListener, hl, hexit]
  · by_cases hd : strings.ToLower env.lowerTable cfg.logLevel = "debug" <;>
      by_cases ht : cfg.tlsCert ≠ "" ∧ cfg.tlsKey ≠ "" <;>
      simp [hs, hd, ht, startHTTPServer, hl, hexit]

/-- C8, counterexample: with a log file that cannot be opened, `main` exits in `setupLogger` with
status 1 and starts neither the HTTP server nor the TCP listener. -/
theorem main_with_unopenable_log_file_starts_nothing :
    (main closedEnv { defaultConfig with logFile := "/nonexistent/goserve.log" }).launched = []
    ∧ (main closedEnv { defaultConfig with logFile := "/nonexistent/goserve.log" }).exit
        = some 1 := by
  decide

/-- C8, as amended: mode selection is exclusive, and total once the logger is set up. For every
configuration for which `setupLogger` does not abort (no log file is configured, or the log file
can be opened), `main` starts exactly one thing: if the serve option is non-empty the HTTP server
on `":" ++ serve`, with TLS if and only if both tls-cert and tls-key are non-empty, and otherwise
the TCP listener on `interface ++ ":" ++ port`; the process has not exited. When the log file
cannot be opened, `main` exits with status 1 and has started nothing. With the default options
the TCP listener is started on `0.0.0.0:8080`. -/
theorem main_starts_exactly_one_mode (env : Env) (cfg : Config) :
    ((cfg.logFile = "" ∨ env.openFile cfg.logFile = true) →
      (main env cfg).launched =
        [if cfg.serve ≠ "" then
          (if cfg.tlsCert ≠ "" ∧ cfg.tlsKey ≠ "" then
            Launch.listenAndServeTLS (":" ++ cfg.serve) cfg.tlsCert cfg.tlsKey
          else Launch.listenAndServe (":" ++ cfg.serve))
        else Launch.tcpListener (cfg.iface ++ ":" ++ cfg.port)]
      ∧ (main env cfg).exit = none)
    ∧ (¬ (cfg.logFile = "" ∨ env.openFile cfg.logFile = true) →
      (main env cfg).launched = [] ∧ (main env cfg).exit = some 1)
    ∧ (main env defaultConfig).launched = [Launch.tcpListener "0.0.0.0:8080"] := by
  refine ⟨main_of_logger_ready env cfg, ?_, ?_⟩
  · intro h
    have hexit := setupLogger_exit env cfg
    have hl := setupLogger_launched env cfg
    rw [if_neg h] at hexit
    unfold main
    simp [hexit, hl]
  · rw [(main_of_logger_ready env defaultConfig (Or.inl rfl)).1]
    decide

/-- C8, witness: with the serve option and both TLS files set, `main` starts the HTTPS server and
nothing else. -/
theorem main_starts_exactly_one_mode_witness :
    (main openEnv { defaultConfig with serve := "8443", tlsCert := "c.pem", tlsKey := "k.pem" }).launched
      = [Launch.listenAndServeTLS ":8443" "c.pem" "k.pem"] :=
  ((main_starts_exactly_one_mode openEnv
      { defaultConfig with serve := "8443", tlsCert := "c.pem", tlsKey := "k.pem" }).1
    (Or.inl rfl)).1.trans (by decide)

theorem unicode_ToLower_of_ascii (table : Char → Char) (c : Char) (h : c.toNat ≤ 0x7F) :
    unicode.ToLower table c = c.toLower := by
  have hA : 'A'.toNat = 65 := rfl
  have hZ : 'Z'.toNat = 90 := rfl
  have ha : 'a'.toNat = 97 := rfl
  unfold unicode.ToLower Char.toLower
  simp only [h, if_true, hA, hZ, ha, ge_iff_le]

theorem toNat_le_of_mem_debug (t : Char) (ht : t ∈ "debug".toList) : t.toNat ≤ 0x7F := by
  have : t = 'd' ∨ t = 'e' ∨ t = 'b' ∨ t = 'u' ∨ t = 'g' := by simpa using ht
  rcases this with h | h | h | h | h <;> subst h <;> decide

/-- A rune is mapped to a letter of `debug` by `unicode.ToLower` exactly when it is that letter
in lower or upper case, as long as the case tables map no rune above ASCII to such a letter. -/
theorem unicode_ToLower_eq_iff (table : Char → Char)
    (htable : ∀ c : Char, 0x7F < c.toNat → table c ∉ "debug".toList)
    (c t : Char) (ht : t ∈ "debug".toList) :
    unicode.ToLower table c = t ↔ c.toLower = t := by
  by_cases hc : c.toNat ≤ 0x7F
  · rw [unicode_ToLower_of_ascii table c hc]
  · have hc2 : 0x7F < c.toNat := by omega
    have h1 : unicode.ToLower table c = table c := by
      unfold unicode.ToLower
      simp only [hc, if_false]
    have h2 : c.toLower = c := by
      unfold Char.toLower
      have : ¬ (c.toNat ≥ 65 ∧ c.toNat ≤ 90) := by omega
      simp only [this, if_false]
    rw [h1, h2]
    constructor
    · intro h
      exact absurd (h ▸ ht) (htable c hc2)
    · intro h
      have := toNat_le_of_mem_debug t ht
      rw [← h] at this
      omega

theorem map_eq_iff_of_pointwise (f g : Char → Char) (ts : List Char)
    (h : ∀ c : Char, ∀ t ∈ ts, (f c = t ↔ g c = t)) (l : List Char) :
    l.map f = ts ↔ l.map g = ts := by
  induction l generalizing ts with
  | nil => simp
  | cons c rest ih =>
    cases ts with
    | nil => simp
    | cons t ts2 =>
      simp only [List.map_cons, List.cons.injEq]
      rw [h c t (List.mem_cons_self t ts2),
        ih ts2 (fun c2 t2 ht2 => h c2 t2 (List.mem_cons_of_mem t ht2))]

theorem strings_ToLower_eq_iff (table : Char → Char) (s : String) (target : String) :
    strings.ToLower table s = target
      ↔ s.toList.map (unicode.ToLower table) = target.toList := by
  unfold strings.ToLower
  constructor
  · intro h
    rw [← h]
    rfl
  · intro h
    rw [h]
    rfl

theorem main_flags_of_logger_ready (env : Env) (cfg : Config)
    (h : cfg.logFile = "" ∨ env.openFile cfg.logFile = true) :
    (main env cfg).flags =
      if strings.ToLower env.lowerTable cfg.logLevel = "debug" then
        log.Ldate ||| log.Ltime ||| log.Lshortfile ||| log.Lmicroseconds
      else log.Ldate ||| log.Ltime ||| log.Lshortfile := by
  have hexit := setupLogger_exit env cfg
  have hf := setupLogger_flags env cfg
  rw [if_pos h] at hexit
  unfold main
  simp only [hexit, Option.isSome_none, Bool.false_eq_true, if_false]
  by_cases hs : cfg.serve = "" <;>
    by_cases hd : strings.ToLower env.lowerTable cfg.logLevel = "debug" <;>
    by_cases ht : cfg.tlsCert ≠ "" ∧ cfg.tlsKey ≠ "" <;>
    simp [hs, hd, ht, startHTTPServer, startTCPListener, hf]

/-- C7, counterexample: with the log-level option `DEBUG`, which is not the string `debug`, the
flags include `log.Lmicroseconds`. -/
theorem uppercase_DEBUG_enables_microseconds :
    (main openEnv { defaultConfig with logLevel := "DEBUG" }).flags &&& log.Lmicroseconds ≠ 0
    ∧ (main openEnv { defaultConfig with logLevel := "DEBUG" }).flags
        = log.Ldate ||| log.Ltime ||| log.Lshortfile ||| log.Lmicroseconds
    ∧ "DEBUG" ≠ "debug" := by
  decide

/-- C7, as amended: log-level selection ignores letter case. For every configuration for which
`setupLogger` does not abort (no log file is configured, or the log file can be opened): (1) the
flags after `main` are `Ldate|Ltime|Lshortfile|Lmicroseconds` when `strings.ToLower` of the
log-level option is `debug`, and `Ldate|Ltime|Lshortfile` otherwise, so they include
`log.Lmicroseconds` if and only if the lower-cased option is `debug`; (2) as no rune above ASCII
has one of the letters of `debug` as its lower case, this is the case if and only if the option
is `debug` written in any mix of upper and lower case (`debug`, `DEBUG`, `Debug`, ...).
(3) When the log file cannot be opened the flags are `Ldate|Ltime|Lshortfile`. -/
theorem microseconds_iff_debug_ignoring_case (env : Env) (cfg : Config) :
    ((cfg.logFile = "" ∨ env.openFile cfg.logFile = true) →
      (main env cfg).flags =
        (if strings.ToLower env.lowerTable cfg.logLevel = "debug" then
          log.Ldate ||| log.Ltime ||| log.Lshortfile ||| log.Lmicroseconds
        else log.Ldate ||| log.Ltime ||| log.Lshortfile)
      ∧ ((main env cfg).flags &&& log.Lmicroseconds ≠ 0
          ↔ strings.ToLower env.lowerTable cfg.logLevel = "debug"))
    ∧ ((cfg.logFile = "" ∨ env.openFile cfg.logFile = true) →
      (∀ c : Char, 0x7F < c.toNat → env.lowerTable c ∉ "debug".toList) →
      ((main env cfg).flags &&& log.Lmicroseconds ≠ 0
          ↔ cfg.logLevel.toList.map Char.toLower = "debug".toList))
    ∧ (¬ (cfg.logFile = "" ∨ env.openFile cfg.logFile = true) →
      (main env cfg).flags = log.Ldate ||| log.Ltime ||| log.Lshortfile) := by
  have hmicro : (cfg.logFile = "" ∨ env.openFile cfg.logFile = true) →
      ((main env cfg).flags &&& log.Lmicroseconds ≠ 0
          ↔ strings.ToLower env.lowerTable cfg.logLevel = "debug") := by
    intro h
    rw [main_flags_of_logger_ready env cfg h]
    by_cases hd : strings.ToLower env.lowerTable cfg.logLevel = "debug"
    · simp only [hd, if_true, iff_true]; decide
    · simp only [hd, if_false, iff_false]; decide
  refine ⟨fun h => ⟨main_flags_of_logger_ready env cfg h, hmicro h⟩, fun h htable => ?_,
    fun h => ?_⟩
  · rw [hmicro h, strings_ToLower_eq_iff]
    exact map_eq_iff_of_pointwise _ _ _
      (fun c t ht => unicode_ToLower_eq_iff env.lowerTable htable c t ht) _
  · have hexit := setupLogger_exit env cfg
    rw [if_neg h] at hexit
    unfold main
    simp [hexit, setupLogger_flags]

/-- C7, witness: with the log-level option `Debug` the flags include `log.Lmicroseconds`, and
with `info` they do not. -/
theorem microseconds_iff_debug_ignoring_case_witness :
    (main openEnv { defaultConfig with logLevel := "Debug" }).flags &&& log.Lmicroseconds ≠ 0
    ∧ ¬ ((main openEnv { defaultConfig with logLevel := "info" }).flags
          &&& log.Lmicroseconds ≠ 0) :=
  ⟨((microseconds_iff_debug_ignoring_case openEnv
      { defaultConfig with logLevel := "Debug" }).2.1 (Or.inl rfl)
      (fun c hc hmem => by
        have := toNat_le_of_mem_debug c hmem
        omega)).mpr (by decide),
   fun h => absurd
    (((microseconds_iff_debug_ignoring_case openEnv
      { defaultConfig with logLevel := "info" }).2.1 (Or.inl rfl)
      (fun c hc hmem => by
        have := toNat_le_of_mem_debug c hmem
        omega)).mp h) (by decide)⟩

end GoServe
